import Mathlib

/-!
# Verification of the chix SSE codec (`src/renderer/sse.go`)

A shallow embedding of the Server-Sent Events encoder/decoder from
`package renderer` of libtnb/chix. Go byte slices and strings become
`List Nat` (each element one byte value); the `io.Reader` payload of an
event becomes `Option (List Nat)` (`none` models a nil reader, which the
encoder would dereference); Go's `(value, error)` results at the byte-read
boundary become `Except`.

All definitions are translated from the Go source. The only spec-side
definition is `specRetryInt?`, used to compare the decoders retry-field
policy against the spec's wording.
-/

namespace ChixSSE

/-- The Go struct `SSEvent`: `Event string; Data io.Reader; ID string;
Retry uint`. Strings are byte lists; `Data = none` models a nil reader. -/
structure SSEvent where
  Event : List Nat
  Data : Option (List Nat)
  ID : List Nat
  Retry : Nat
deriving DecidableEq

/-- ASCII bytes of the field name "event". -/
def kwEvent : List Nat := [101, 118, 101, 110, 116]

/-- ASCII bytes of the field name "id". -/
def kwID : List Nat := [105, 100]

/-- ASCII bytes of the field name "retry". -/
def kwRetry : List Nat := [114, 101, 116, 114, 121]

/-- ASCII bytes of the field name "data". -/
def kwData : List Nat := [100, 97, 116, 97]

/-- ASCII bytes of the default event type "message". -/
def kwMessage : List Nat := [109, 101, 115, 115, 97, 103, 101]

/-- Big-endian decimal digit values of `n`, with explicit fuel so the
recursion is structural (the fuel bounds the number of divisions by 10).
Models the digit expansion behind Go's `fmt.Fprintf("%d", n)`. -/
def natDecDigitsAux : Nat → Nat → List Nat
  | 0, _ => []
  | fuel + 1, n => if n = 0 then [] else natDecDigitsAux fuel (n / 10) ++ [n % 10]

/-- Big-endian decimal digit values of `n` (`[]` for zero). -/
def natDecDigits (n : Nat) : List Nat := natDecDigitsAux n n

/-- ASCII decimal representation of an unsigned integer, as printed by
Go's `fmt.Fprintf("%d", n)` for a `uint`. -/
def uintDec (n : Nat) : List Nat :=
  if n = 0 then [48] else (natDecDigits n).map (fun d => d + 48)

/-- `bytes.Join(xs, sep)`. -/
def joinBytes (sep : List Nat) : List (List Nat) → List Nat
  | [] => []
  | [x] => x
  | x :: y :: xs => x ++ sep ++ joinBytes sep (y :: xs)

/-- `SSEventEncode(writer, event)` from `sse.go`, under an infallible sink:
the bytes the buffered writer flushes. Writes `event: <v>\n` when the name
is non-empty, then `id: <v>\n` when the id is non-empty, then
`retry: <v>\n` when retry is positive, then `data: ` followed by the
payload verbatim and `\n\n`. `io.Copy` on a nil `Data` reader dereferences
a nil interface (a Go panic); that is modelled as `none`. -/
def SSEventEncode (event : SSEvent) : Option (List Nat) :=
  let buf : List Nat := []
  let buf := if 0 < event.Event.length then buf ++ (kwEvent ++ [58, 32] ++ event.Event ++ [10]) else buf
  let buf := if 0 < event.ID.length then buf ++ (kwID ++ [58, 32] ++ event.ID ++ [10]) else buf
  let buf := if 0 < event.Retry then buf ++ (kwRetry ++ [58, 32] ++ uintDec event.Retry ++ [10]) else buf
  let buf := buf ++ (kwData ++ [58, 32])
  match event.Data with
  | none => none
  | some payload => some (buf ++ payload ++ [10, 10])

/-- `bytes.TrimPrefix(raw, []byte{0xEF, 0xBB, 0xBF})`: drop one leading
UTF-8 byte-order mark when present. -/
def trimBOM : List Nat → List Nat
  | a :: b :: c :: rest =>
    if a = 239 ∧ b = 187 ∧ c = 191 then rest else a :: b :: c :: rest
  | l => l

/-- `bytes.ReplaceAll(raw, "\r\n", "\n")`: left-to-right, non-overlapping
replacement of each CRLF pair by a single LF. -/
def normCRLF : List Nat → List Nat
  | [] => []
  | [c] => [c]
  | c1 :: c2 :: rest =>
    if c1 = 13 ∧ c2 = 10 then 10 :: normCRLF rest
    else c1 :: normCRLF (c2 :: rest)

/-- `bytes.ReplaceAll(raw, "\r", "\n")`: every remaining lone CR becomes LF. -/
def normCR (l : List Nat) : List Nat :=
  l.map (fun c => if c = 13 then 10 else c)

/-- `bytes.Split(raw, "\n")`: split on LF, keeping empty segments; the
empty input yields one empty segment. -/
def splitLines : List Nat → List (List Nat)
  | [] => [[]]
  | c :: rest =>
    if c = 10 then [] :: splitLines rest
    else
      match splitLines rest with
      | [] => [[c]]
      | l :: ls => (c :: l) :: ls

/-- `bytes.IndexRune(line, ':')` plus the split around it: `some (f, v)`
when a colon occurs, where `f` is everything before the first colon and
`v` everything after it; `none` when the line has no colon. -/
def splitColon : List Nat → Option (List Nat × List Nat)
  | [] => none
  | c :: rest =>
    if c = 58 then some ([], rest)
    else
      match splitColon rest with
      | none => none
      | some (f, v) => some (c :: f, v)

/-- The decoder's value cleanup: `if len(value) > 0 && value[0] == ' '
{ value = value[1:] }` — strip exactly one leading space. -/
def stripLeadSpace : List Nat → List Nat
  | [] => []
  | c :: rest => if c = 32 then rest else c :: rest

/-- A field line split into `(field, value)` exactly as the decoder does:
split at the first colon and strip one optional leading space from the
value; a line without a colon is all field name with an empty value. -/
def parseField (line : List Nat) : List Nat × List Nat :=
  match splitColon line with
  | some (f, v) => (f, stripLeadSpace v)
  | none => (line, [])

/-- Strict all-digits parse used inside the `strconv.Atoi` model: `some`
of the value when the string is non-empty and every byte is an ASCII
digit, `none` otherwise. -/
def parseDigits (s : List Nat) : Option Nat :=
  if s = [] then none
  else if ∀ c ∈ s, 48 ≤ c ∧ c ≤ 57 then
    some (s.foldl (fun acc c => acc * 10 + (c - 48)) 0)
  else none

/-- `strconv.Atoi(string(value))` on a 64-bit platform: one optional sign,
then one or more ASCII digits, and the value must fit a signed 64-bit
integer; anything else is an error (`none`). -/
def atoi? (s : List Nat) : Option Int :=
  match s with
  | [] => none
  | c :: rest =>
    if c = 45 then
      (parseDigits rest).bind (fun n => if n ≤ 2 ^ 63 then some (-(n : Int)) else none)
    else if c = 43 then
      (parseDigits rest).bind (fun n => if n ≤ 2 ^ 63 - 1 then some ((n : Int)) else none)
    else
      (parseDigits (c :: rest)).bind (fun n => if n ≤ 2 ^ 63 - 1 then some ((n : Int)) else none)

/-- Spec-side comparator for the retry policy, following the spec's words
only: "parsed as a base-10 integer; accepted only if parsing succeeds
strictly (no trailing non-digit characters)" — a strict sign-and-digits
parse of the mathematical integer, with no machine-range bound. -/
def specRetryInt? (s : List Nat) : Option Int :=
  match s with
  | [] => none
  | c :: rest =>
    if c = 45 then (parseDigits rest).map (fun (n : Nat) => -(n : Int))
    else if c = 43 then (parseDigits rest).map (fun (n : Nat) => (n : Int))
    else (parseDigits (c :: rest)).map (fun (n : Nat) => (n : Int))

/-- The zero value of the Go `SSEvent` struct. -/
def emptySSEvent : SSEvent := ⟨[], none, [], 0⟩

/-- The decoder's loop state: the pending `data` line values, the
in-progress event, and the completed events in order. -/
structure DecState where
  dataLines : List (List Nat)
  event : SSEvent
  events : List SSEvent
deriving DecidableEq

/-- The loop state at entry: no pending data, zero-valued in-progress
event, no completed events. -/
def initState : DecState := ⟨[], emptySSEvent, []⟩

/-- The decoder's field dispatch (`switch string(field)`): `event` sets
the name; `id` sets the id unless the value contains a NUL byte; `retry`
stores the value only when `strconv.Atoi` succeeds with a non-negative
result; `data` appends the value to the pending data lines; any other
field is ignored. -/
def applyField (st : DecState) (f v : List Nat) : DecState :=
  if f = kwEvent then { st with event := { st.event with Event := v } }
  else if f = kwID then
    if 0 ∈ v then st else { st with event := { st.event with ID := v } }
  else if f = kwRetry then
    match atoi? v with
    | some n => if 0 ≤ n then { st with event := { st.event with Retry := n.toNat } } else st
    | none => st
  else if f = kwData then { st with dataLines := st.dataLines ++ [v] }
  else st

/-- One iteration of the decoder's line loop. A blank line is an event
boundary: skipped when nothing accumulated, otherwise the pending data
lines are joined with LF into the payload, the event name defaults to
"message", the event is appended and the state reset. A line starting
with a colon is a comment and is ignored. Any other line is a field line. -/
def processLine (st : DecState) (line : List Nat) : DecState :=
  if line = [] then
    if st.dataLines = [] ∧ st.event.Event = [] then st
    else
      let e1 := if st.dataLines = [] then st.event
                else { st.event with Data := some (joinBytes [10] st.dataLines) }
      let e2 := if e1.Event = [] then { e1 with Event := kwMessage } else e1
      ⟨[], emptySSEvent, st.events ++ [e2]⟩
  else if line.head? = some 58 then st
  else
    let fv := parseField line
    applyField st fv.1 fv.2

/-- `SSEventDecode` after a successful drain of the reader: strip one
leading BOM, normalize CRLF then lone CR to LF, split on LF, and fold the
line loop; the completed events are returned and any pending
un-terminated block is dropped. -/
def SSEventDecode (raw : List Nat) : List SSEvent :=
  let lines := splitLines (normCR (normCRLF (trimBOM raw)))
  (lines.foldl processLine initState).events

/-- `SSEventDecode(reader)` including the `io.ReadAll` boundary: a read
failure is returned verbatim; a successful drain is decoded by the pure
decoder, which never fails. -/
def SSEventDecodeE {ε : Type} (src : Except ε (List Nat)) : Except ε (List SSEvent) :=
  match src with
  | Except.error e => Except.error e
  | Except.ok raw => Except.ok (SSEventDecode raw)

/-! ## Normalization lemmas -/

theorem normCRLF_cons (c : Nat) (l : List Nat) (hc : c ≠ 13) :
    normCRLF (c :: l) = c :: normCRLF l := by
  cases l with
  | nil => rfl
  | cons d t => simp [normCRLF, hc]

theorem normCRLF_eq_self {l : List Nat} (h : 13 ∉ l) : normCRLF l = l := by
  induction l with
  | nil => rfl
  | cons c t ih =>
    have hc : c ≠ 13 := fun e => h (by simp [e])
    have ht : 13 ∉ t := fun m => h (List.mem_cons_of_mem c m)
    rw [normCRLF_cons c t hc, ih ht]

theorem normCR_eq_self {l : List Nat} (h : 13 ∉ l) : normCR l = l := by
  induction l with
  | nil => rfl
  | cons c t ih =>
    have hc : c ≠ 13 := fun e => h (by simp [e])
    have ht : 13 ∉ t := fun m => h (List.mem_cons_of_mem c m)
    simp only [normCR, List.map_cons, if_neg hc]
    exact congrArg (c :: ·) (ih ht)

theorem not_mem_normCR (l : List Nat) : 13 ∉ normCR l := by
  intro m
  rcases List.mem_map.mp m with ⟨c, _, hc⟩
  by_cases h : c = 13 <;> simp [h] at hc

theorem trimBOM_cons1 {a : Nat} (l : List Nat) (h : a ≠ 239) :
    trimBOM (a :: l) = a :: l := by
  match l with
  | [] => rfl
  | [b] => rfl
  | b :: c :: t => simp [trimBOM, h]

theorem trimBOM_cons2 {b : Nat} (a : Nat) (l : List Nat) (h : b ≠ 187) :
    trimBOM (a :: b :: l) = a :: b :: l := by
  match l with
  | [] => rfl
  | c :: t => simp [trimBOM, h]

theorem trimBOM_cons3 {c : Nat} (a b : Nat) (l : List Nat) (h : c ≠ 191) :
    trimBOM (a :: b :: c :: l) = a :: b :: c :: l := by
  simp [trimBOM, h]

/-! ## Line splitting lemmas -/

theorem splitLines_ne_nil (l : List Nat) : splitLines l ≠ [] := by
  cases l with
  | nil => simp [splitLines]
  | cons c t =>
    by_cases h : c = 10
    · simp [splitLines, h]
    · simp only [splitLines, if_neg h]
      cases splitLines t <;> simp

theorem splitLines_append (a r : List Nat) (h : 10 ∉ a) :
    splitLines (a ++ 10 :: r) = a :: splitLines r := by
  induction a with
  | nil => simp [splitLines]
  | cons c t ih =>
    have hc : c ≠ 10 := fun e => h (by simp [e])
    have ht : 10 ∉ t := fun m => h (List.mem_cons_of_mem c m)
    simp only [List.cons_append, splitLines, if_neg hc, List.append_eq, ih ht]

/-! ## Field parsing lemmas -/

theorem splitColon_append (f v : List Nat) (h : 58 ∉ f) :
    splitColon (f ++ 58 :: v) = some (f, v) := by
  induction f with
  | nil => simp [splitColon]
  | cons c t ih =>
    have hc : c ≠ 58 := fun e => h (by simp [e])
    have ht : 58 ∉ t := fun m => h (List.mem_cons_of_mem c m)
    simp only [List.cons_append, splitColon, if_neg hc, List.append_eq, ih ht]

theorem splitColon_eq_none {l : List Nat} (h : 58 ∉ l) : splitColon l = none := by
  induction l with
  | nil => rfl
  | cons c t ih =>
    have hc : c ≠ 58 := fun e => h (by simp [e])
    have ht : 58 ∉ t := fun m => h (List.mem_cons_of_mem c m)
    simp only [splitColon, if_neg hc, ih ht]

theorem parseField_colon (f v : List Nat) (h : 58 ∉ f) :
    parseField (f ++ 58 :: v) = (f, stripLeadSpace v) := by
  simp [parseField, splitColon_append f v h]

theorem parseField_no_colon {l : List Nat} (h : 58 ∉ l) :
    parseField l = (l, []) := by
  simp [parseField, splitColon_eq_none h]

/-! ## Line-loop lemmas -/

theorem processLine_comment (st : DecState) (l : List Nat) (h : l.head? = some 58) :
    processLine st l = st := by
  cases l with
  | nil => simp at h
  | cons c t =>
    simp only [List.head?_cons, Option.some.injEq] at h
    simp [processLine, h]

theorem processLine_field (st : DecState) (f v : List Nat)
    (hne : f ≠ []) (h58 : 58 ∉ f) :
    processLine st (f ++ 58 :: 32 :: v) = applyField st f v := by
  obtain ⟨c, t, rfl⟩ := List.exists_cons_of_ne_nil hne
  have hc : c ≠ 58 := fun e => h58 (by simp [e])
  have hpf : parseField (c :: (t ++ 58 :: 32 :: v)) = (c :: t, v) := by
    have h0 := parseField_colon (c :: t) (32 :: v) h58
    simpa [stripLeadSpace] using h0
  simp [processLine, hc, hpf]

theorem applyField_event (st : DecState) (v : List Nat) :
    applyField st kwEvent v = { st with event := { st.event with Event := v } } := by
  simp [applyField]

theorem applyField_id (st : DecState) (v : List Nat) :
    applyField st kwID v =
      if 0 ∈ v then st else { st with event := { st.event with ID := v } } := by
  have h1 : kwID ≠ kwEvent := by decide
  simp [applyField, h1]

theorem applyField_retry (st : DecState) (v : List Nat) :
    applyField st kwRetry v =
      match atoi? v with
      | some n => if 0 ≤ n then { st with event := { st.event with Retry := n.toNat } } else st
      | none => st := by
  have h1 : kwRetry ≠ kwEvent := by decide
  have h2 : kwRetry ≠ kwID := by decide
  simp [applyField, h1, h2]

theorem applyField_data (st : DecState) (v : List Nat) :
    applyField st kwData v = { st with dataLines := st.dataLines ++ [v] } := by
  have h1 : kwData ≠ kwEvent := by decide
  have h2 : kwData ≠ kwID := by decide
  have h3 : kwData ≠ kwRetry := by decide
  simp [applyField, h1, h2, h3]

theorem processLine_blank (st : DecState) :
    processLine st [] =
      if st.dataLines = [] ∧ st.event.Event = [] then st
      else
        { dataLines := []
          event := emptySSEvent
          events := st.events ++
            [{ Event := if st.event.Event = [] then kwMessage else st.event.Event
               Data := if st.dataLines = [] then st.event.Data
                       else some (joinBytes [10] st.dataLines)
               ID := st.event.ID
               Retry := st.event.Retry }] } := by
  rcases st with ⟨dls, ⟨eE, eD, eI, eR⟩, evs⟩
  by_cases h1 : dls = [] <;> by_cases h2 : eE = [] <;>
    simp [processLine, h1, h2]

/-! ## Decimal digit lemmas -/

theorem natDecDigitsAux_lt (fuel n : Nat) : ∀ d ∈ natDecDigitsAux fuel n, d < 10 := by
  induction fuel generalizing n with
  | zero => simp [natDecDigitsAux]
  | succ fuel ih =>
    intro d hd
    by_cases h : n = 0
    · simp [natDecDigitsAux, h] at hd
    · simp only [natDecDigitsAux, if_neg h, List.mem_append, List.mem_singleton] at hd
      rcases hd with hd | hd
      · exact ih (n / 10) d hd
      · exact hd ▸ Nat.mod_lt n (by norm_num)

theorem natDecDigitsAux_foldl (fuel : Nat) :
    ∀ n acc, n ≤ fuel →
      List.foldl (fun a d => a * 10 + d) acc (natDecDigitsAux fuel n) =
        acc * 10 ^ (natDecDigitsAux fuel n).length + n := by
  induction fuel with
  | zero =>
    intro n acc hn
    have h0 : n = 0 := Nat.le_zero.mp hn
    simp [natDecDigitsAux, h0]
  | succ fuel ih =>
    intro n acc hn
    by_cases h : n = 0
    · simp [natDecDigitsAux, h]
    · have hdiv : n / 10 ≤ fuel := by
        have h1 : n / 10 < n := Nat.div_lt_self (Nat.pos_of_ne_zero h) (by norm_num)
        omega
      simp only [natDecDigitsAux, if_neg h, List.foldl_append, List.foldl_cons,
        List.foldl_nil, List.length_append, List.length_singleton]
      rw [ih (n / 10) acc hdiv]
      calc (acc * 10 ^ (natDecDigitsAux fuel (n / 10)).length + n / 10) * 10 + n % 10
          = acc * 10 ^ (natDecDigitsAux fuel (n / 10)).length * 10 + (10 * (n / 10) + n % 10) := by
            ring
        _ = acc * 10 ^ (natDecDigitsAux fuel (n / 10)).length * 10 + n := by
            rw [Nat.div_add_mod]
        _ = acc * 10 ^ ((natDecDigitsAux fuel (n / 10)).length + 1) + n := by
            ring

theorem natDecDigitsAux_ne_nil {fuel n : Nat} (h0 : 0 < n) (hf : n ≤ fuel) :
    natDecDigitsAux fuel n ≠ [] := by
  cases fuel with
  | zero => omega
  | succ fuel => simp [natDecDigitsAux, Nat.pos_iff_ne_zero.mp h0]

theorem uintDec_mem (n : Nat) : ∀ c ∈ uintDec n, 48 ≤ c ∧ c ≤ 57 := by
  intro c hc
  by_cases h : n = 0
  · simp [uintDec, h] at hc
    omega
  · simp only [uintDec, if_neg h, natDecDigits] at hc
    rcases List.mem_map.mp hc with ⟨d, hd, rfl⟩
    have := natDecDigitsAux_lt n n d hd
    omega

theorem uintDec_ne_nil (n : Nat) : uintDec n ≠ [] := by
  by_cases h : n = 0
  · simp [uintDec, h]
  · simp only [uintDec, if_neg h, natDecDigits]
    simpa using natDecDigitsAux_ne_nil (Nat.pos_of_ne_zero h) le_rfl

theorem parseDigits_uintDec (n : Nat) : parseDigits (uintDec n) = some n := by
  by_cases h : n = 0
  · subst h
    decide
  · have hne : (natDecDigits n).map (fun d => d + 48) ≠ [] := by
      have := uintDec_ne_nil n
      simpa [uintDec, if_neg h] using this
    have hall : ∀ c ∈ (natDecDigits n).map (fun d => d + 48), 48 ≤ c ∧ c ≤ 57 := by
      have := uintDec_mem n
      simpa [uintDec, if_neg h] using this
    simp only [uintDec, if_neg h, parseDigits, if_neg hne, if_pos hall]
    rw [List.foldl_map]
    simp only [Nat.add_sub_cancel]
    have hf := natDecDigitsAux_foldl n n 0 le_rfl
    simp only [natDecDigits]
    rw [hf]
    simp

theorem atoi_uintDec {n : Nat} (hmax : n ≤ 2 ^ 63 - 1) :
    atoi? (uintDec n) = some ((n : Int)) := by
  obtain ⟨c, rest, hcr⟩ := List.exists_cons_of_ne_nil (uintDec_ne_nil n)
  obtain ⟨hc1, hc2⟩ := uintDec_mem n c (by rw [hcr]; exact List.mem_cons_self c rest)
  have h45 : ¬ c = 45 := by omega
  have h43 : ¬ c = 43 := by omega
  have hpd : parseDigits (c :: rest) = some n := by
    rw [← hcr]
    exact parseDigits_uintDec n
  rw [hcr]
  simp only [atoi?, if_neg h45, if_neg h43, hpd, Option.some_bind, if_pos hmax]

theorem atoi_imp_spec {v : List Nat} {n : Int} (h : atoi? v = some n) :
    specRetryInt? v = some n := by
  cases v with
  | nil => simp [atoi?] at h
  | cons c rest =>
    simp only [atoi?] at h
    simp only [specRetryInt?]
    by_cases h45 : c = 45
    · simp only [if_pos h45] at h ⊢
      rcases Option.bind_eq_some.mp h with ⟨m, hm, hif⟩
      rw [hm, Option.map_some']
      by_cases hb : m ≤ 2 ^ 63
      · rw [if_pos hb] at hif
        exact hif
      · rw [if_neg hb] at hif
        exact absurd hif (by simp)
    · by_cases h43 : c = 43
      · simp only [if_neg h45, if_pos h43] at h ⊢
        rcases Option.bind_eq_some.mp h with ⟨m, hm, hif⟩
        rw [hm, Option.map_some']
        by_cases hb : m ≤ 2 ^ 63 - 1
        · rw [if_pos hb] at hif
          exact hif
        · rw [if_neg hb] at hif
          exact absurd hif (by simp)
      · simp only [if_neg h45, if_neg h43] at h ⊢
        rcases Option.bind_eq_some.mp h with ⟨m, hm, hif⟩
        rw [hm, Option.map_some']
        by_cases hb : m ≤ 2 ^ 63 - 1
        · rw [if_pos hb] at hif
          exact hif
        · rw [if_neg hb] at hif
          exact absurd hif (by simp)

/-! ## Commutation of BOM stripping with line-ending normalization -/

theorem normAll_cons (c : Nat) (l : List Nat) :
    ∃ t, normCR (normCRLF (c :: l)) = (if c = 13 then 10 else c) :: t := by
  by_cases hc : c = 13
  · subst hc
    cases l with
    | nil => exact ⟨[], by simp [normCRLF, normCR]⟩
    | cons d t =>
      by_cases hd : d = 10
      · subst hd
        exact ⟨normCR (normCRLF t), by simp [normCRLF, normCR]⟩
      · have h1 : normCRLF (13 :: d :: t) = 13 :: normCRLF (d :: t) := by
          simp [normCRLF, hd]
        rw [h1]
        exact ⟨normCR (normCRLF (d :: t)), by simp [normCR]⟩
  · rw [normCRLF_cons c l hc]
    exact ⟨normCR (normCRLF l), by simp [normCR, hc]⟩

theorem trimBOM_len_lt (l : List Nat) (h : l.length < 3) : trimBOM l = l := by
  match l with
  | [] => rfl
  | [a] => rfl
  | [a, b] => rfl
  | a :: b :: c :: t =>
    simp only [List.length_cons] at h
    omega

theorem trimBOM_normAll (raw : List Nat) :
    trimBOM (normCR (normCRLF raw)) = normCR (normCRLF (trimBOM raw)) := by
  match raw with
  | [] => rfl
  | [a] =>
    have h1 : trimBOM [a] = [a] := rfl
    rw [h1]
    apply trimBOM_len_lt
    simp [normCRLF, normCR]
  | [a, b] =>
    have h1 : trimBOM [a, b] = [a, b] := rfl
    rw [h1]
    apply trimBOM_len_lt
    by_cases hab : a = 13 ∧ b = 10
    · obtain ⟨rfl, rfl⟩ := hab
      simp [normCRLF, normCR]
    · have h2 : normCRLF [a, b] = [a, b] := by simp [normCRLF, hab]
      rw [h2]
      simp [normCR]
  | a :: b :: c :: rest =>
    by_cases hbom : a = 239 ∧ b = 187 ∧ c = 191
    · obtain ⟨rfl, rfl, rfl⟩ := hbom
      have h1 : normCRLF (239 :: 187 :: 191 :: rest) = 239 :: 187 :: 191 :: normCRLF rest := by
        rw [normCRLF_cons 239 _ (by norm_num), normCRLF_cons 187 _ (by norm_num),
            normCRLF_cons 191 _ (by norm_num)]
      rw [h1]
      have h2 : normCR (239 :: 187 :: 191 :: normCRLF rest) =
          239 :: 187 :: 191 :: normCR (normCRLF rest) := by
        simp [normCR]
      rw [h2]
      have h3 : trimBOM (239 :: 187 :: 191 :: normCR (normCRLF rest)) =
          normCR (normCRLF rest) := by
        simp [trimBOM]
      have h4 : trimBOM (239 :: 187 :: 191 :: rest) = rest := by
        simp [trimBOM]
      rw [h3, h4]
    · have h4 : trimBOM (a :: b :: c :: rest) = a :: b :: c :: rest := by
        simp only [trimBOM, if_neg hbom]
      rw [h4]
      by_cases ha : a = 239
      · subst ha
        have hbc : ¬(b = 187 ∧ c = 191) := fun hh => hbom ⟨rfl, hh.1, hh.2⟩
        have h1 : normCRLF (239 :: b :: c :: rest) = 239 :: normCRLF (b :: c :: rest) :=
          normCRLF_cons 239 _ (by norm_num)
        rw [h1]
        have h2 : normCR (239 :: normCRLF (b :: c :: rest)) =
            239 :: normCR (normCRLF (b :: c :: rest)) := by
          simp [normCR]
        rw [h2]
        by_cases hb : b = 187
        · subst hb
          have hc : c ≠ 191 := fun hh => hbc ⟨rfl, hh⟩
          have h3 : normCRLF (187 :: c :: rest) = 187 :: normCRLF (c :: rest) :=
            normCRLF_cons 187 _ (by norm_num)
          rw [h3]
          have h5 : normCR (187 :: normCRLF (c :: rest)) =
              187 :: normCR (normCRLF (c :: rest)) := by
            simp [normCR]
          rw [h5]
          obtain ⟨t3, h6⟩ := normAll_cons c rest
          rw [h6]
          apply trimBOM_cons3
          by_cases h13 : c = 13
          · simp [h13]
          · simpa [h13] using hc
        · obtain ⟨t2, h6⟩ := normAll_cons b (c :: rest)
          rw [h6]
          apply trimBOM_cons2
          by_cases h13 : b = 13
          · simp [h13]
          · simpa [h13] using hb
      · obtain ⟨t1, h6⟩ := normAll_cons a (b :: c :: rest)
        rw [h6]
        apply trimBOM_cons1
        by_cases h13 : a = 13
        · simp [h13]
        · simpa [h13] using ha

theorem normAll_idem (l : List Nat) :
    normCR (normCRLF (normCR (normCRLF l))) = normCR (normCRLF l) := by
  have h := not_mem_normCR (normCRLF l)
  rw [normCRLF_eq_self h, normCR_eq_self h]

/-! ## Claim theorems -/

/-- Claim C2: decode returns an error exactly when draining the byte source
fails, and that error is propagated verbatim; once the input bytes have been
read successfully, decoding always succeeds (the pure decoder is total), no
matter how malformed the content is. -/
theorem claim_C2_error_propagation (ε : Type) (src : Except ε (List Nat)) :
    (∃ e, src = Except.error e ∧ SSEventDecodeE src = Except.error e) ∨
    (∃ raw, src = Except.ok raw ∧ SSEventDecodeE src = Except.ok (SSEventDecode raw)) := by
  cases src with
  | error e => exact Or.inl ⟨e, rfl, rfl⟩
  | ok raw => exact Or.inr ⟨raw, rfl, rfl⟩

/-- Claim C3: the encoder writes exactly, in this fixed order, `event: <v>\n`
only when the event name is non-empty, then `id: <v>\n` only when the id is
non-empty, then `retry: <v>\n` in unsigned decimal only when retry is
positive, then always `data: ` followed by the payload bytes verbatim (an
embedded newline is not split into several data lines) and `\n\n`. -/
theorem claim_C3_encode_format (ev id d : List Nat) (r : Nat) :
    SSEventEncode ⟨ev, some d, id, r⟩ =
      some ((if ev = [] then [] else kwEvent ++ [58, 32] ++ ev ++ [10])
        ++ ((if id = [] then [] else kwID ++ [58, 32] ++ id ++ [10])
        ++ ((if r = 0 then [] else kwRetry ++ [58, 32] ++ uintDec r ++ [10])
        ++ (kwData ++ [58, 32] ++ (d ++ [10, 10]))))) := by
  by_cases h1 : ev = [] <;> by_cases h2 : id = [] <;> by_cases h3 : r = 0 <;>
    simp [SSEventEncode, h1, h2, h3, Nat.pos_iff_ne_zero, List.length_pos,
      List.append_assoc]

/-- Claim C4: a blank line emits an event exactly when at least one data line
was accumulated or the in-progress event name is non-empty (otherwise it is a
no-op); the emitted event name defaults to "message" and the payload is the
accumulated data lines joined with one LF and no trailing newline. Decoding
`"\n\nevent: t\ndata: d\n\n\n"` yields exactly one event, and a trailing block
never terminated by a blank line is dropped. -/
theorem claim_C4_boundary :
    (∀ st : DecState, processLine st [] =
      if st.dataLines = [] ∧ st.event.Event = [] then st
      else
        { dataLines := []
          event := emptySSEvent
          events := st.events ++
            [{ Event := if st.event.Event = [] then kwMessage else st.event.Event
               Data := if st.dataLines = [] then st.event.Data
                       else some (joinBytes [10] st.dataLines)
               ID := st.event.ID
               Retry := st.event.Retry }] })
    ∧ SSEventDecode [10, 10, 101, 118, 101, 110, 116, 58, 32, 116, 10, 100, 97, 116, 97, 58, 32, 100, 10, 10, 10] =
        [⟨[116], some [100], [], 0⟩]
    ∧ SSEventDecode [101, 118, 101, 110, 116, 58, 32, 116, 10, 100, 97, 116, 97, 58, 32, 100] = [] :=
  ⟨processLine_blank, by decide, by decide⟩

/-- Claim C5: a non-blank non-comment line is split at its first colon into
field and value (a colon-free line is all field name with empty value); a
value starting with a space loses exactly that one space and nothing more;
accumulated data values join with a single LF and no trailing newline, so
`"data: a\ndata: b\ndata:c\n\n"` decodes to payload `"a\nb\nc"` and
`"data:  two spaces"` keeps its second space. -/
theorem claim_C5_field_split :
    (∀ f v : List Nat, 58 ∉ f → parseField (f ++ 58 :: v) = (f, stripLeadSpace v))
    ∧ (∀ l : List Nat, 58 ∉ l → parseField l = (l, []))
    ∧ (∀ v : List Nat, stripLeadSpace (32 :: v) = v)
    ∧ SSEventDecode [100, 97, 116, 97, 58, 32, 97, 10, 100, 97, 116, 97, 58, 32, 98, 10, 100, 97, 116, 97, 58, 99, 10, 10] =
        [⟨kwMessage, some [97, 10, 98, 10, 99], [], 0⟩]
    ∧ SSEventDecode [100, 97, 116, 97, 58, 32, 32, 116, 119, 111, 32, 115, 112, 97, 99, 101, 115, 10, 10] =
        [⟨kwMessage, some [32, 116, 119, 111, 32, 115, 112, 97, 99, 101, 115], [], 0⟩] :=
  ⟨parseField_colon, fun _ h => parseField_no_colon h,
   fun v => by simp [stripLeadSpace], by decide, by decide⟩

/-- Witness for C5 at the concrete line `"d:  x"`: the value keeps all but the
first leading space. -/
theorem claim_C5_witness :
    parseField ([100] ++ 58 :: [32, 120]) = ([100], stripLeadSpace [32, 120]) :=
  claim_C5_field_split.1 [100] [32, 120] (by decide)

/-- Claim C6: a retry field either leaves the state unchanged or stores a
value that the spec-side strict base-10 parse accepts as a non-negative
integer; the values "invalid", "-100" and "100ms" all leave retry at 0
without failing the decode. -/
theorem claim_C6_retry_policy :
    (∀ (st : DecState) (v : List Nat),
        applyField st kwRetry v = st ∨
        ∃ n : Int, specRetryInt? v = some n ∧ 0 ≤ n ∧
          applyField st kwRetry v = { st with event := { st.event with Retry := n.toNat } })
    ∧ SSEventDecodeE (Except.ok [114, 101, 116, 114, 121, 58, 32, 105, 110, 118, 97, 108, 105, 100, 10, 100, 97, 116, 97, 58, 32, 116, 101, 115, 116, 10, 10] : Except Nat (List Nat)) =
        Except.ok [⟨kwMessage, some [116, 101, 115, 116], [], 0⟩]
    ∧ SSEventDecodeE (Except.ok [114, 101, 116, 114, 121, 58, 32, 45, 49, 48, 48, 10, 100, 97, 116, 97, 58, 32, 116, 101, 115, 116, 10, 10] : Except Nat (List Nat)) =
        Except.ok [⟨kwMessage, some [116, 101, 115, 116], [], 0⟩]
    ∧ SSEventDecodeE (Except.ok [114, 101, 116, 114, 121, 58, 32, 49, 48, 48, 109, 115, 10, 100, 97, 116, 97, 58, 32, 116, 101, 115, 116, 10, 10] : Except Nat (List Nat)) =
        Except.ok [⟨kwMessage, some [116, 101, 115, 116], [], 0⟩] := by
  refine ⟨?_, rfl, rfl, rfl⟩
  intro st v
  cases h : atoi? v with
  | none =>
    left
    simp [applyField_retry, h]
  | some n =>
    by_cases hn : 0 ≤ n
    · right
      exact ⟨n, atoi_imp_spec h, hn, by simp [applyField_retry, h, hn]⟩
    · left
      simp [applyField_retry, h, hn]

/-- Claim C7: an id value containing a NUL byte is discarded without error
(the state is unchanged), otherwise the value is assigned; decoding a block
whose only id line contains a NUL yields an empty id and still succeeds. -/
theorem claim_C7_id_nul :
    (∀ (st : DecState) (v : List Nat), 0 ∈ v → applyField st kwID v = st)
    ∧ (∀ (st : DecState) (v : List Nat), 0 ∉ v →
        applyField st kwID v = { st with event := { st.event with ID := v } })
    ∧ SSEventDecodeE (Except.ok [105, 100, 58, 32, 116, 101, 115, 116, 0, 110, 117, 108, 108, 10, 100, 97, 116, 97, 58, 32, 116, 101, 115, 116, 10, 10] : Except Nat (List Nat)) =
        Except.ok [⟨kwMessage, some [116, 101, 115, 116], [], 0⟩] := by
  refine ⟨?_, ?_, rfl⟩
  · intro st v h
    simp [applyField_id, h]
  · intro st v h
    simp [applyField_id, h]

/-- Witness for C7 at the concrete NUL-containing value `[0]`. -/
theorem claim_C7_witness : applyField initState kwID [0] = initState :=
  claim_C7_id_nul.1 initState [0] (by decide)

/-- Claim C9: a comment line (first byte a colon) never changes the decoder
state, so inserting one at any line position leaves the decoded events
unchanged; decoding `": c\nevent: t\ndata: d\n\n"` equals decoding
`"event: t\ndata: d\n\n"`. -/
theorem claim_C9_comments :
    (∀ (st : DecState) (l : List Nat), l.head? = some 58 → processLine st l = st)
    ∧ (∀ (pre post : List (List Nat)) (cl : List Nat) (st : DecState), cl.head? = some 58 →
        List.foldl processLine st (pre ++ cl :: post) = List.foldl processLine st (pre ++ post))
    ∧ SSEventDecode [58, 32, 99, 10, 101, 118, 101, 110, 116, 58, 32, 116, 10, 100, 97, 116, 97, 58, 32, 100, 10, 10] =
        SSEventDecode [101, 118, 101, 110, 116, 58, 32, 116, 10, 100, 97, 116, 97, 58, 32, 100, 10, 10] := by
  refine ⟨processLine_comment, ?_, by decide⟩
  intro pre post cl st h
  rw [List.foldl_append, List.foldl_append, List.foldl_cons, processLine_comment _ _ h]

/-- Witness for C9: a lone comment line between no other lines is a no-op. -/
theorem claim_C9_witness :
    List.foldl processLine initState ([] ++ [58] :: []) =
      List.foldl processLine initState ([] ++ []) :=
  claim_C9_comments.2.1 [] [] [58] initState rfl

/-- Claim C10: the encoder is not total on events with an absent payload — a
`none` (nil reader) Data always yields `none` (the modelled panic of
`io.Copy` on a nil reader) rather than an error value — and such events reach
the public interface: decoding a block with an event name and no data lines
leaves Data `none`, and re-encoding that decoded event yields `none`. -/
theorem claim_C10_nil_data :
    (∀ e : SSEvent, e.Data = none → SSEventEncode e = none)
    ∧ SSEventDecode [101, 118, 101, 110, 116, 58, 32, 116, 10, 10] = [⟨[116], none, [], 0⟩]
    ∧ SSEventEncode ⟨[116], none, [], 0⟩ = none := by
  refine ⟨?_, by decide, by decide⟩
  intro e h
  simp [SSEventEncode, h]

/-- Witness for C10 at the concrete decoded event `⟨"t", none, "", 0⟩`. -/
theorem claim_C10_witness : SSEventEncode ⟨[116], none, [], 0⟩ = none :=
  claim_C10_nil_data.1 ⟨[116], none, [], 0⟩ rfl

/-- Claim C8: the decoder normalizes once up front — one leading BOM is
stripped, CRLF becomes LF before remaining lone CRs become LF — so an input
with an extra leading BOM decodes like the input without it, every input
decodes like its all-LF normalization, a BOM before `"data: x\n\n"` still
yields payload `"x"`, and a CRLF/CR-mixed input decodes like its LF
counterpart. -/
theorem claim_C8_normalization :
    (∀ raw : List Nat, trimBOM raw = raw →
        SSEventDecode ([239, 187, 191] ++ raw) = SSEventDecode raw)
    ∧ (∀ raw : List Nat, SSEventDecode (normCR (normCRLF raw)) = SSEventDecode raw)
    ∧ SSEventDecode ([239, 187, 191] ++ [100, 97, 116, 97, 58, 32, 120, 10, 10]) =
        [⟨kwMessage, some [120], [], 0⟩]
    ∧ SSEventDecode [101, 118, 101, 110, 116, 58, 32, 116, 13, 10, 100, 97, 116, 97, 58, 32, 100, 13, 13] =
        SSEventDecode [101, 118, 101, 110, 116, 58, 32, 116, 10, 100, 97, 116, 97, 58, 32, 100, 10, 10] := by
  refine ⟨?_, ?_, by decide, by decide⟩
  · intro raw h
    have ht : trimBOM ([239, 187, 191] ++ raw) = raw := by simp [trimBOM]
    simp only [SSEventDecode]
    rw [ht, h]
  · intro raw
    simp only [SSEventDecode]
    rw [trimBOM_normAll raw, normAll_idem (trimBOM raw)]

/-- Witness for C8: prepending a BOM to `"data: x\n\n"` does not change the
decoded events. -/
theorem claim_C8_witness :
    SSEventDecode ([239, 187, 191] ++ [100, 97, 116, 97, 58, 32, 120, 10, 10]) =
      SSEventDecode [100, 97, 116, 97, 58, 32, 120, 10, 10] :=
  claim_C8_normalization.1 [100, 97, 116, 97, 58, 32, 120, 10, 10] (by decide)

/-- Claim C1 as stated is false: the event `⟨"e", "d", id = [NUL], retry 1⟩`
has a non-empty event name, a non-empty id, a positive retry and a payload
without newlines, yet decoding its encoding drops the NUL-containing id, so
the decoded event differs from the original. -/
theorem claim_C1_counterexample :
    (([101] : List Nat) ≠ [] ∧ ([0] : List Nat) ≠ [] ∧ (0 : Nat) < 1 ∧ (10 : Nat) ∉ [100])
    ∧ (SSEventEncode ⟨[101], some [100], [0], 1⟩).map SSEventDecode ≠
        some [⟨[101], some [100], [0], 1⟩] := by
  constructor
  · decide
  · decide

/-- Claim C1, amended: the round trip holds for an event with a non-empty
event name and id and a positive retry once the fields survive the decoder's
sanitization unchanged — the name, id and payload contain no LF and no CR,
the id contains no NUL, and retry fits a signed 64-bit integer. -/
theorem claim_C1_round_trip (ev id d : List Nat) (r : Nat)
    (hev : ev ≠ []) (hid : id ≠ []) (hr : 0 < r) (hrB : r ≤ 2 ^ 63 - 1)
    (hev10 : 10 ∉ ev) (hev13 : 13 ∉ ev)
    (hid10 : 10 ∉ id) (hid13 : 13 ∉ id) (hid0 : 0 ∉ id)
    (hd10 : 10 ∉ d) (hd13 : 13 ∉ d) :
    (SSEventEncode ⟨ev, some d, id, r⟩).map SSEventDecode =
      some [⟨ev, some d, id, r⟩] := by
  have hevl : 0 < ev.length := List.length_pos.mpr hev
  have hidl : 0 < id.length := List.length_pos.mpr hid
  have henc : SSEventEncode ⟨ev, some d, id, r⟩ =
      some ((kwEvent ++ 58 :: 32 :: ev) ++ 10 :: ((kwID ++ 58 :: 32 :: id) ++ 10 ::
        ((kwRetry ++ 58 :: 32 :: uintDec r) ++ 10 ::
          ((kwData ++ 58 :: 32 :: d) ++ 10 :: [10])))) := by
    simp only [SSEventEncode, if_pos hevl, if_pos hidl, if_pos hr]
    simp [List.append_assoc]
  rw [henc, Option.map_some']
  congr 1
  have hru : ∀ c ∈ uintDec r, 48 ≤ c ∧ c ≤ 57 := uintDec_mem r
  have h13u : (13 : Nat) ∉ uintDec r := fun m => by have := hru 13 m; omega
  have h10u : (10 : Nat) ∉ uintDec r := fun m => by have := hru 10 m; omega
  have h13 : (13 : Nat) ∉ ((kwEvent ++ 58 :: 32 :: ev) ++ 10 :: ((kwID ++ 58 :: 32 :: id) ++ 10 ::
      ((kwRetry ++ 58 :: 32 :: uintDec r) ++ 10 :: ((kwData ++ 58 :: 32 :: d) ++ 10 :: [10])))) := by
    simp [kwEvent, kwID, kwRetry, kwData, hev13, hid13, hd13, h13u]
  simp only [SSEventDecode]
  have htrim : trimBOM ((kwEvent ++ 58 :: 32 :: ev) ++ 10 :: ((kwID ++ 58 :: 32 :: id) ++ 10 ::
      ((kwRetry ++ 58 :: 32 :: uintDec r) ++ 10 :: ((kwData ++ 58 :: 32 :: d) ++ 10 :: [10])))) =
      ((kwEvent ++ 58 :: 32 :: ev) ++ 10 :: ((kwID ++ 58 :: 32 :: id) ++ 10 ::
      ((kwRetry ++ 58 :: 32 :: uintDec r) ++ 10 :: ((kwData ++ 58 :: 32 :: d) ++ 10 :: [10])))) :=
    trimBOM_cons1 _ (by norm_num)
  rw [htrim, normCRLF_eq_self h13, normCR_eq_self h13]
  have h10l1 : (10 : Nat) ∉ kwEvent ++ 58 :: 32 :: ev := by simp [kwEvent, hev10]
  have h10l2 : (10 : Nat) ∉ kwID ++ 58 :: 32 :: id := by simp [kwID, hid10]
  have h10l3 : (10 : Nat) ∉ kwRetry ++ 58 :: 32 :: uintDec r := by simp [kwRetry, h10u]
  have h10l4 : (10 : Nat) ∉ kwData ++ 58 :: 32 :: d := by simp [kwData, hd10]
  rw [splitLines_append _ _ h10l1, splitLines_append _ _ h10l2,
      splitLines_append _ _ h10l3, splitLines_append _ _ h10l4]
  have hlast : splitLines [10] = [[], []] := rfl
  rw [hlast]
  simp only [List.foldl_cons, List.foldl_nil]
  rw [processLine_field initState kwEvent ev (by decide) (by decide), applyField_event]
  rw [processLine_field _ kwID id (by decide) (by decide), applyField_id, if_neg hid0]
  rw [processLine_field _ kwRetry (uintDec r) (by decide) (by decide)]
  simp only [applyField_retry, atoi_uintDec hrB, Int.natCast_nonneg, if_true, Int.toNat_natCast]
  rw [processLine_field _ kwData d (by decide) (by decide), applyField_data]
  simp only [initState, emptySSEvent, List.nil_append]
  have hjoin : joinBytes [10] [d] = d := rfl
  simp [processLine_blank, hev, hjoin, emptySSEvent]

/-- Witness for C1 at the concrete event `⟨"e", "d", "i", 1⟩`. -/
theorem claim_C1_witness :
    (SSEventEncode ⟨[101], some [100], [105], 1⟩).map SSEventDecode =
      some [⟨[101], some [100], [105], 1⟩] :=
  claim_C1_round_trip [101] [105] [100] 1 (by decide) (by decide) (by decide) (by decide)
    (by decide) (by decide) (by decide) (by decide) (by decide) (by decide) (by decide)

end ChixSSE
